import Mathlib

/-!
Shallow embedding of the firlog log-ingestion and date-sharded indexing
engine (src/app.go, src/engine.go) for checking the specification's claims.

Go machine-level conventions modelled here:
  - Go maps holding interface values are modelled as association lists of
    JSON-like values; map assignment is modelled as a prepend whose lookup
    returns the most recent binding.
  - Fallible Go functions returning (T, error) are modelled with Except or
    Option; Go runtime panics (out-of-range indexing, failed type
    assertions, explicit panic calls) are modelled with a distinguished
    crash / panicked result constructor.
  - The opaque bleve index capability, the JSON decoder and the disk are
    modelled as oracle parameters, so that the control flow of the
    repository's own code stays the object of study.
-/

namespace Firlog

/-- Wall-clock timestamp as produced by Go time.Parse of an RFC3339 string:
the civil fields as written on the wire plus the written zone offset in
seconds east of UTC.  The instant it denotes is utcInstantSec. -/
structure Timestamp where
  year : Nat
  month : Nat
  day : Nat
  hour : Nat
  minute : Nat
  second : Nat
  nano : Nat
  offset : Int
deriving DecidableEq

/-- Days from civil date to the 1970-01-01 epoch (Howard Hinnant's civil
algorithm, the same date arithmetic Go's time package realizes).  Inputs are
the parser-validated ranges, year at least 1. -/
def daysFromCivil (y m d : Nat) : Int :=
  let yAdj := if m ≤ 2 then y - 1 else y
  let era := yAdj / 400
  let yoe := yAdj - era * 400
  let mp := if 2 < m then m - 3 else m + 9
  let doy := (153 * mp + 2) / 5 + d - 1
  let doe := yoe * 365 + yoe / 4 - yoe / 100 + doy
  (era * 146097 + doe : Int) - 719468

/-- UTC instant (seconds since the epoch) denoted by a parsed timestamp:
wall-clock seconds minus the written zone offset.  This is what Go stores
inside time.Time and what instant equality means. -/
def utcInstantSec (t : Timestamp) : Int :=
  daysFromCivil t.year t.month t.day * 86400
    + ((t.hour * 3600 + t.minute * 60 + t.second : Nat) : Int) - t.offset

/-- Decimal digit character, as Go's zero-padded formatting produces. -/
def digitChar (n : Nat) : Char := Char.ofNat (48 + n % 10)

/-- Two-digit zero-padded decimal rendering, for the in-range values (less
than 100) the parser admits; models the "01"/"02" verbs of Go Format. -/
def pad2 (n : Nat) : String := ⟨[digitChar (n / 10 % 10), digitChar (n % 10)]⟩

/-- Four-digit zero-padded decimal rendering, for the in-range values (less
than 10000) the parser admits; models the "2006" verb of Go Format. -/
def pad4 (n : Nat) : String :=
  ⟨[digitChar (n / 1000 % 10), digitChar (n / 100 % 10),
    digitChar (n / 10 % 10), digitChar (n % 10)]⟩

/-- Embedding of the day-key derivation used by both Engine.Index and
Engine.Search: Go evaluates log.Time.Format("20060102"), which renders the
wall-clock civil date of the time value in its own location (the zone offset
written on the wire) -- no conversion to UTC happens. -/
def formatDay (t : Timestamp) : String := pad4 t.year ++ pad2 t.month ++ pad2 t.day

/-- JSON-like runtime values, modelling what Go's encoding/json decoder
stores in a map of interface values, plus the time.Time value the parser
itself inserts under the "time" key. -/
inductive JVal where
  | str (s : String)
  | num (lexeme : String)
  | boolean (b : Bool)
  | null
  | arr (elems : List JVal)
  | obj (kvs : List (String × JVal))
  | timeVal (t : Timestamp)

/-- Go map of string keys, as an association list: assignment prepends and
lookup returns the most recent binding. -/
abbrev Dict := List (String × JVal)

/-- Lookup in an association list, most recent binding first. -/
def assocGet {α : Type} : List (String × α) → String → Option α
  | [], _ => none
  | (k, v) :: rest, key => if k = key then some v else assocGet rest key

/-- Map assignment m[k] = v. -/
def Dict.set (d : Dict) (k : String) (v : JVal) : Dict := (k, v) :: d

/-- Map lookup m[k]. -/
def Dict.get (d : Dict) (k : String) : Option JVal := assocGet d k

/-- Go json.Unmarshal into a non-nil map merges: every key of the decoded
object is assigned into the existing map in order, so duplicate keys keep
the decoded value and untouched keys keep their previous value. -/
def unmarshalInto (d : Dict) (kvs : List (String × JVal)) : Dict :=
  kvs.foldl (fun acc kv => acc.set kv.1 kv.2) d

/-- Last binding of a key in a decoded JSON object (Go's decoder lets a
later duplicate key win). -/
def objGet (kvs : List (String × JVal)) (key : String) : Option JVal :=
  assocGet kvs.reverse key

/-- Character-list splitter behind splitNGo: n is the number of parts still
allowed, acc the reversed current part. -/
def splitNAux : Nat → List Char → List Char → List String
  | _, [], acc => [⟨acc.reverse⟩]
  | n, c :: cs, acc =>
    if n ≤ 1 then [⟨acc.reverse ++ c :: cs⟩]
    else if c = ' ' then (⟨acc.reverse⟩ : String) :: splitNAux (n - 1) cs []
    else splitNAux n cs (c :: acc)

/-- Embedding of Go strings.SplitN(s, " ", n): at most n parts, the last
part keeps the remaining separators verbatim. -/
def splitNGo (s : String) (n : Nat) : List String := splitNAux n s.data []

/-- Embedding of Go strings.Split(s, sep) for a one-character separator. -/
def splitAllAux (sep : Char) : List Char → List Char → List String
  | [], acc => [⟨acc.reverse⟩]
  | c :: cs, acc =>
    if c = sep then (⟨acc.reverse⟩ : String) :: splitAllAux sep cs []
    else splitAllAux sep cs (c :: acc)

/-- Embedding of Go strings.Split(s, sep), one-character separator. -/
def splitAllGo (s : String) (sep : Char) : List String := splitAllAux sep s.data []

/-- Embedding of Go strings.TrimRight(s, cutset) for the single-newline
cutset used by handleBulk: drops every trailing newline. -/
def trimRightNL (s : String) : String :=
  ⟨(s.data.reverse.dropWhile (fun c => c = '\n')).reverse⟩

/-- Prefix of a string before the first occurrence of a separator character;
embedding of strings.Split(name, sep) indexed at 0. -/
def firstField (sep : Char) (s : String) : String := ⟨s.data.takeWhile (fun c => c ≠ sep)⟩

/-- Decimal digit test on characters. -/
def isDigitB (c : Char) : Bool := decide (48 ≤ c.toNat ∧ c.toNat ≤ 57)

/-- Value of a decimal digit character. -/
def digitVal? (c : Char) : Option Nat :=
  if 48 ≤ c.toNat ∧ c.toNat ≤ 57 then some (c.toNat - 48) else none

/-- Two fixed decimal digits. -/
def num2 : List Char → Option (Nat × List Char)
  | a :: b :: rest => do
    let x ← digitVal? a
    let y ← digitVal? b
    some (10 * x + y, rest)
  | _ => none

/-- Four fixed decimal digits. -/
def num4 : List Char → Option (Nat × List Char)
  | a :: b :: c :: d :: rest => do
    let x ← digitVal? a
    let y ← digitVal? b
    let z ← digitVal? c
    let w ← digitVal? d
    some (1000 * x + 100 * y + 10 * z + w, rest)
  | _ => none

/-- Expect one literal character. -/
def expectCh (ch : Char) : List Char → Option (List Char)
  | c :: rest => if c = ch then some rest else none
  | [] => none

/-- Proleptic Gregorian leap-year rule, as Go's time package applies it. -/
def isLeapYear (y : Nat) : Bool := decide (y % 4 = 0 ∧ (¬ y % 100 = 0 ∨ y % 400 = 0))

/-- Length in days of a civil month, as Go's date validation uses. -/
def daysInMonth (y m : Nat) : Nat :=
  if m = 2 then (if isLeapYear y then 29 else 28)
  else if m = 4 ∨ m = 6 ∨ m = 9 ∨ m = 11 then 30 else 31

/-- Nanoseconds denoted by the fractional-second digits (first nine digits
significant), as Go's fraction parsing computes. -/
def nanoOfFrac (ds : List Char) : Nat :=
  let taken := ds.take 9
  let v := taken.foldl (fun a c => a * 10 + (c.toNat - 48)) 0
  v * 10 ^ (9 - taken.length)

/-- Optional fractional-second component: either absent, or a dot followed
by at least one digit. -/
def parseFracPart : List Char → Option (Nat × List Char)
  | '.' :: rest =>
    let ds := rest.takeWhile isDigitB
    if ds.isEmpty then none else some (nanoOfFrac ds, rest.drop ds.length)
  | r => some (0, r)

/-- Numeric zone offset body HH:MM, consuming the whole rest of the input;
yields the offset magnitude in seconds. -/
def parseOffBody (r : List Char) : Option Int := do
  let (hh, r) ← num2 r
  let r ← expectCh ':' r
  let (mm, r) ← num2 r
  match r with
  | [] => if hh ≤ 23 ∧ mm ≤ 59 then some ((hh * 3600 + mm * 60 : Nat) : Int) else none
  | _ => none

/-- Zone designator: Z for UTC or a signed HH:MM offset, ending the input. -/
def parseZone : List Char → Option Int
  | ['Z'] => some 0
  | '+' :: rest => parseOffBody rest
  | '-' :: rest => (parseOffBody rest).map (fun x => -x)
  | _ => none

/-- Embedding of Go time.Parse(time.RFC3339, s): fixed-layout
YYYY-MM-DDTHH:MM:SS with optional fractional seconds and a Z or signed
HH:MM zone, with civil-range validation (month, day-in-month with leap
years, hour, minute, second). -/
def parseRFC3339 (s : String) : Option Timestamp := do
  let r := s.data
  let (y, r) ← num4 r
  let r ← expectCh '-' r
  let (mo, r) ← num2 r
  let r ← expectCh '-' r
  let (d, r) ← num2 r
  let r ← expectCh 'T' r
  let (h, r) ← num2 r
  let r ← expectCh ':' r
  let (mi, r) ← num2 r
  let r ← expectCh ':' r
  let (se, r) ← num2 r
  let (nano, r) ← parseFracPart r
  let off ← parseZone r
  if 1 ≤ mo ∧ mo ≤ 12 ∧ 1 ≤ d ∧ d ≤ daysInMonth y mo ∧ h ≤ 23 ∧ mi ≤ 59 ∧ se ≤ 59 then
    some ⟨y, mo, d, h, mi, se, nano, off⟩
  else none

/-- One ingested record, source type Log of engine.go: the assigned id, the
parsed wire timestamp and the open field map. -/
structure Log where
  Id : String
  Time : Timestamp
  Data : Dict

/-- Result of the JSON decode of a message, supplied as an oracle for Go
json.Unmarshal on an object literal: none is a decode error, some gives the
decoded top-level key/value pairs in document order. -/
abbrev JsonOracle := String → Option (List (String × JVal))

/-- Outcome of handling one bulk line in handleBulk: a parsed record, a
skipped malformed line, or a Go runtime panic. -/
inductive LineResult where
  | record (r : Log)
  | skip
  | crash

/-- Embedding of the message-interpretation tail of handleBulk (app.go lines
162-177): after the 8-way split and the time parse succeeded, Go reads
message[0] (panicking on an empty message), treats a braced message as JSON
merged into the default host/app/process map (skipping the line when the
decode fails), stores any other message verbatim under msg, then assigns id
and time. -/
def messageStep (jp : JsonOracle) (id : String) (t : Timestamp) (data0 : Dict)
    (message : String) : LineResult :=
  match message.data with
  | [] => .crash
  | c :: _ =>
    if c = '{' ∧ message.data.getLastD ' ' = '}' then
      match jp message with
      | none => .skip
      | some obj =>
        .record ⟨id, t, ((unmarshalInto data0 obj).set "id" (.str id)).set "time" (.timeVal t)⟩
    else
      .record ⟨id, t, (((data0.set "msg" (.str message)).set "id" (.str id)).set
        "time" (.timeVal t))⟩

/-- Default field map built by handleBulk before the message is
interpreted: host, app and process from the 4th, 5th and 6th fields. -/
def defaultData (parts : List String) : Dict :=
  Dict.set (Dict.set (Dict.set [] "host" (.str (parts.getD 3 "")))
    "app" (.str (parts.getD 4 ""))) "process" (.str (parts.getD 5 ""))

/-- Embedding of the per-line body of handleBulk (app.go lines 147-184):
split into at most 8 space-separated fields, skip on fewer than 8, parse the
3rd field as RFC3339 and skip on failure, then run the message step with the
host/app/process defaults taken from fields 4-6. -/
def parseLine (jp : JsonOracle) (id : String) (line : String) : LineResult :=
  let parts := splitNGo line 8
  if parts.length ≠ 8 then .skip
  else
    match parseRFC3339 (parts.getD 2 "") with
    | none => .skip
    | some t => messageStep jp id t (defaultData parts) (parts.getD 7 "")

/-- Embedding of handleBulk's loop over lines: ids are drawn from the given
supply only when a record is produced (newUlid runs after the malformed-line
checks), skipped lines leave the loop running, and a runtime panic aborts
the whole request (no record list is produced). -/
def parseLinesGo (jp : JsonOracle) : List String → List String → Option (List Log)
  | _, [] => some []
  | ids, line :: rest =>
    match parseLine jp (ids.headD "") line with
    | .crash => none
    | .skip => parseLinesGo jp ids rest
    | .record r => (parseLinesGo jp ids.tail rest).map (fun rs => r :: rs)

/-- Embedding of handleBulk's body handling: trim trailing newlines, split
on newlines, then run the per-line loop. -/
def parseBody (jp : JsonOracle) (ids : List String) (body : String) : Option (List Log) :=
  parseLinesGo jp ids (splitAllGo (trimRightNL body) '\n')

/-- Storage errors of the engine model; the carried string names the Go
error path taken. -/
inductive GoErr where
  | msg (s : String)
deriving DecidableEq

/-- Result of an operation that can end in a Go runtime panic on top of
returning a value or an error. -/
inductive Outcome (α : Type) where
  | ok (a : α)
  | fail (e : GoErr)
  | panicked (e : GoErr)

/-- Opaque bleve index handle. -/
abbrev Handle := Nat

/-- Engine state, the e.indexes map from day key to open index handle,
assignment modelled as a prepend whose lookup returns the most recent
binding. -/
abbrev EngSt := List (String × Handle)

/-- Disk answer for one day key's index path, covering the three branches
of indexFor: os.Stat fails with a non-not-exist error; the path is absent
and bleve.New then returns a handle or an error; the path is present and
bleve.Open then returns a handle or an error. -/
inductive DiskOutcome where
  | statError
  | absent (create : Option Handle)
  | present (opened : Option Handle)

/-- Disk oracle: what the storage layer answers for each day key. -/
abbrev Disk := String → DiskOutcome

/-- Embedding of Engine.indexFor (engine.go lines 268-292): return the
cached handle when the map has one; otherwise stat the index path and
create or open it, registering the handle in the map before returning.
Every error path returns an error value -- indexFor never panics. -/
def indexFor (disk : Disk) (st : EngSt) (date : String) : Except GoErr (Handle × EngSt) :=
  match assocGet st date with
  | some h => .ok (h, st)
  | none =>
    match disk date with
    | .statError => .error (.msg "failed to check existence of index")
    | .absent none => .error (.msg "bleve new")
    | .absent (some h) => .ok (h, (date, h) :: st)
    | .present none => .error (.msg "bleve open")
    | .present (some h) => .ok (h, (date, h) :: st)

/-- Per-day batch contents accumulated by Engine.Index's first loop: the ids
of the records destined for that day's shard, in input order, grouped in
first-seen day order. -/
def addToGroup : List (String × List String) → String → String → List (String × List String)
  | [], date, id => [(date, [id])]
  | (d, ids) :: rest, date, id =>
    if d = date then (d, ids ++ [id]) :: rest
    else (d, ids) :: addToGroup rest date id

/-- Embedding of the first loop of Engine.Index (engine.go lines 222-240):
for each record derive its day key from its own timestamp, look up or
create the shard (an error aborts the call before any commit), serialize
the record's data (a marshal error likewise aborts), and accumulate the
record into that day's batch. -/
def indexPhase1 (disk : Disk) (marshalOk : Log → Bool) :
    EngSt → List (String × List String) → List Log →
    EngSt × List (String × List String) × Option GoErr
  | st, groups, [] => (st, groups, none)
  | st, groups, lg :: rest =>
    match indexFor disk st (formatDay lg.Time) with
    | .error e => (st, groups, some e)
    | .ok (_, st') =>
      if marshalOk lg then
        indexPhase1 disk marshalOk st' (addToGroup groups (formatDay lg.Time) lg.Id) rest
      else (st', groups, some (.msg "json marshal"))

/-- Embedding of the second loop of Engine.Index (engine.go lines 242-251),
iterating the accumulated batches in the given map-iteration order: each
batch's shard is looked up and its batch committed; the first failing
commit returns the error immediately, leaving every batch not yet reached
uncommitted and every batch already committed committed (no rollback).
Returns the final engine state, the committed day keys in commit order,
and the error if any. -/
def commitPhase (disk : Disk) (commitOk : String → Bool) :
    EngSt → List String → EngSt × List String × Option GoErr
  | st, [] => (st, [], none)
  | st, date :: rest =>
    match indexFor disk st date with
    | .error e => (st, [], some e)
    | .ok (_, st') =>
      if commitOk date then
        match commitPhase disk commitOk st' rest with
        | (st'', cs, err) => (st'', date :: cs, err)
      else (st', [], some (.msg "error executing batch"))

/-- Embedding of Engine.Index (engine.go lines 219-254): the grouping loop
followed by the commit loop; order is the Go map iteration order over the
accumulated batches (any permutation of the batch keys).  Returns the final
engine state, the day keys whose batches were committed, and the error
returned to the caller if any. -/
def engineIndex (disk : Disk) (marshalOk : Log → Bool) (commitOk : String → Bool)
    (order : List String) (st : EngSt) (logs : List Log) :
    EngSt × List String × Option GoErr :=
  match indexPhase1 disk marshalOk st [] logs with
  | (st', _, some e) => (st', [], some e)
  | (st', _, none) => commitPhase disk commitOk st' order

/-- One hit of the underlying union query, as Engine.Search consumes it:
the document id and the stored time field (an interface value that the code
asserts to be a string). -/
structure Hit where
  id : String
  timeField : JVal

/-- Record as Engine.Search rebuilds it: the hit id plus the data map
decoded from the raw stored blob (the Time field of Log is left zero on
this path). -/
structure OutRec where
  id : String
  data : Dict

/-- Raw stored blob fetch oracle, modelling index.GetInternal on a given
handle and id: none is a storage error. -/
abbrev FetchOracle := Handle → String → Option String

/-- Blob decode oracle, modelling json.Unmarshal of the raw blob into the
record's data map: none is a decode error. -/
abbrev UnmarshalOracle := String → Option Dict

/-- Embedding of the hit loop of Engine.Search (engine.go lines 191-216):
for each hit, assert the stored time field to a string (a non-string
panics), parse it as RFC3339 (failure fails the call), re-derive the day
key and look up or open that shard (failure fails the call), fetch the raw
blob by id (failure fails the call) and decode it (failure fails the call).
The first failure aborts the whole call with an error: no partial list is
returned.  The limit argument is received and never used, exactly as in the
source.  The engine state is threaded because the shard lookup can open new
shards on the read path. -/
def searchGo (disk : Disk) (fetch : FetchOracle) (unm : UnmarshalOracle) :
    EngSt → List Hit → Int → EngSt × Outcome (List OutRec)
  | st, [], _ => (st, .ok [])
  | st, hit :: rest, limit =>
    match hit.timeField with
    | .str dtString =>
      match parseRFC3339 dtString with
      | none => (st, .fail (.msg "time parse"))
      | some dt =>
        match indexFor disk st (formatDay dt) with
        | .error e => (st, .fail e)
        | .ok (h, st') =>
          match fetch h hit.id with
          | none => (st', .fail (.msg "bleve get internal"))
          | some raw =>
            match unm raw with
            | none => (st', .fail (.msg "json unmarshal"))
            | some data =>
              match searchGo disk fetch unm st' rest limit with
              | (st'', .ok logs) => (st'', .ok (⟨hit.id, data⟩ :: logs))
              | (st'', .fail e) => (st'', .fail e)
              | (st'', .panicked e) => (st'', .panicked e)
    | _ => (st, .panicked (.msg "interface conversion"))

/-- Embedding of Engine.Stats (engine.go lines 169-175): a read-only pass
mapping every open shard's handle to its stats snapshot; the engine state
is not modified (the function takes it by value and returns no state). -/
def engineStats (statOf : Handle → Dict) (st : EngSt) : List (String × Dict) :=
  st.map (fun p => (p.1, statOf p.2))

/-- Embedding of NewEngine (engine.go lines 148-167): list the tenant's
data directory (an error, including the directory not existing, is passed
to panic), then open every listed index, keying it by the name's prefix
before the first underscore (an open error is passed to panic). -/
def newEngineAux (openIdx : String → Option Handle) :
    EngSt → List String → Outcome EngSt
  | st, [] => .ok st
  | st, name :: rest =>
    match openIdx name with
    | none => .panicked (.msg "bleve open")
    | some h => newEngineAux openIdx ((firstField '_' name, h) :: st) rest

/-- Embedding of NewEngine: listing is the result of listIndexes on the
tenant's directory (none when os.Open of the directory fails, as it does
for a token whose per-tenant directory does not yet exist). -/
def newEngine (listing : Option (List String)) (openIdx : String → Option Handle) :
    Outcome EngSt :=
  match listing with
  | none => .panicked (.msg "list indexes")
  | some names => newEngineAux openIdx [] names

/-- Embedding of Log.FormattedMessage (engine.go lines 120-126): an
unconditional type assertion reads Data["msg"] as a string (a missing key
or non-string value panics), then an optional level field is prefixed (a
present non-string level also panics). -/
def FormattedMessage (d : Dict) : Outcome String :=
  match d.get "msg" with
  | some (.str m) =>
    match d.get "level" with
    | some (.str lv) => .ok (lv ++ " " ++ m)
    | some _ => .panicked (.msg "interface conversion")
    | none => .ok m
  | _ => .panicked (.msg "interface conversion")

/-- Crockford base32 alphabet used by the ULID string encoding. -/
def b32Alphabet : List Char :=
  ['0', '1', '2', '3', '4', '5', '6', '7', '8', '9', 'A', 'B', 'C', 'D', 'E', 'F',
   'G', 'H', 'J', 'K', 'M', 'N', 'P', 'Q', 'R', 'S', 'T', 'V', 'W', 'X', 'Y', 'Z']

/-- Digit character of the Crockford base32 alphabet. -/
def b32Char (n : Nat) : Char := b32Alphabet.getD (n % 32) '0'

/-- Fixed-width big-endian base32 digit expansion. -/
def natDigitsB32 : Nat → Nat → List Char
  | 0, _ => []
  | l + 1, n => b32Char (n / 32 ^ l) :: natDigitsB32 l (n % 32 ^ l)

/-- Embedding of newUlid (app.go lines 219-223) through the oklog/ulid
string encoding: the identifier is the 10-character base32 rendering of the
48-bit millisecond timestamp followed by the 16-character base32 rendering
of the 80-bit random payload drawn from the pooled entropy source. -/
def ulidString (tms rnd : Nat) : String :=
  ⟨natDigitsB32 10 tms ++ natDigitsB32 16 rnd⟩

/-- Concrete disk oracle for witnesses: every index path is absent and the
creation succeeds with handle 5. -/
def oracleDiskNew : Disk := fun _ => DiskOutcome.absent (some 5)

/-- Concrete blob fetch oracle for witnesses: every fetch succeeds. -/
def oracleFetchOk : FetchOracle := fun _ _ => some "raw"

/-- Concrete unmarshal oracle for witnesses: every decode yields the empty
map. -/
def oracleUnmEmpty : UnmarshalOracle := fun _ => some []

/-- Concrete JSON oracle for witnesses: every decode fails. -/
def oracleJsonNone : JsonOracle := fun _ => none

/-- Concrete JSON oracle for witnesses: every decode yields one key. -/
def oracleJsonFoo : JsonOracle := fun _ => some [("foo", JVal.str "bar")]

/-- Concrete record on day 20200101 for counterexamples. -/
def logA : Log := ⟨"A", ⟨2020, 1, 1, 0, 0, 0, 0, 0⟩, []⟩

/-- Concrete record on day 20200102 for counterexamples. -/
def logB : Log := ⟨"B", ⟨2020, 1, 2, 0, 0, 0, 0, 0⟩, []⟩

/-! Helper lemmas. -/

theorem digitChar_inj : ∀ a, a < 10 → ∀ b, b < 10 → digitChar a = digitChar b → a = b := by
  decide

theorem formatDay_data (t : Timestamp) :
    (formatDay t).data =
      [digitChar (t.year / 1000 % 10), digitChar (t.year / 100 % 10),
       digitChar (t.year / 10 % 10), digitChar (t.year % 10),
       digitChar (t.month / 10 % 10), digitChar (t.month % 10),
       digitChar (t.day / 10 % 10), digitChar (t.day % 10)] := rfl

/-! Claim C1. -/

/-- Claim C1, counterexample: the wire timestamps 2020-01-02T04:30:00Z and
2020-01-01T23:30:00-05:00 denote the same UTC instant, yet Engine.Index
derives different day keys for them, because Time.Format("20060102")
renders the wall-clock date in the written offset, not in UTC.  So two
records denoting the same UTC instant are routed to different shards, and
the shard day key is not the UTC calendar day. -/
theorem c1_counterexample :
    utcInstantSec ⟨2020, 1, 2, 4, 30, 0, 0, 0⟩ =
      utcInstantSec ⟨2020, 1, 1, 23, 30, 0, 0, -18000⟩ ∧
    (⟨2020, 1, 2, 4, 30, 0, 0, 0⟩ : Timestamp).nano =
      (⟨2020, 1, 1, 23, 30, 0, 0, -18000⟩ : Timestamp).nano ∧
    formatDay ⟨2020, 1, 2, 4, 30, 0, 0, 0⟩ ≠ formatDay ⟨2020, 1, 1, 23, 30, 0, 0, -18000⟩ :=
  ⟨by decide, rfl, by decide⟩

/-- Claim C1 (amended): the shard day key is the calendar day of the
record's timestamp in the timestamp's own written offset, formatted
YYYYMMDD; routing is a pure function of the record's own wall-clock date --
two records whose written dates agree share a shard and (within the
syntactic ranges RFC3339 admits) two records whose written dates differ
land in different shards. -/
theorem c1_amended (t1 t2 : Timestamp)
    (hy1 : t1.year < 10000) (hm1 : t1.month < 100) (hd1 : t1.day < 100)
    (hy2 : t2.year < 10000) (hm2 : t2.month < 100) (hd2 : t2.day < 100) :
    formatDay t1 = formatDay t2 ↔
      t1.year = t2.year ∧ t1.month = t2.month ∧ t1.day = t2.day := by
  constructor
  · intro h
    have hd : (formatDay t1).data = (formatDay t2).data := by rw [h]
    rw [formatDay_data, formatDay_data] at hd
    simp only [List.cons.injEq, and_true] at hd
    obtain ⟨e1, e2, e3, e4, e5, e6, e7, e8⟩ := hd
    have g1 := digitChar_inj _ (by omega) _ (by omega) e1
    have g2 := digitChar_inj _ (by omega) _ (by omega) e2
    have g3 := digitChar_inj _ (by omega) _ (by omega) e3
    have g4 := digitChar_inj _ (by omega) _ (by omega) e4
    have g5 := digitChar_inj _ (by omega) _ (by omega) e5
    have g6 := digitChar_inj _ (by omega) _ (by omega) e6
    have g7 := digitChar_inj _ (by omega) _ (by omega) e7
    have g8 := digitChar_inj _ (by omega) _ (by omega) e8
    refine ⟨by omega, by omega, by omega⟩
  · intro ⟨hy, hm, hd⟩
    simp [formatDay, pad4, pad2, hy, hm, hd]

/-- Claim C1 witness: the amended routing equivalence evaluated on two
concrete timestamps of the same written date in different offsets. -/
theorem c1_amended_witness :
    formatDay ⟨2020, 1, 1, 0, 0, 0, 0, 0⟩ = formatDay ⟨2020, 1, 1, 23, 59, 59, 0, -18000⟩ := by
  exact (c1_amended ⟨2020, 1, 1, 0, 0, 0, 0, 0⟩ ⟨2020, 1, 1, 23, 59, 59, 0, -18000⟩
    (by decide) (by decide) (by decide) (by decide) (by decide) (by decide)).mpr
    ⟨rfl, rfl, rfl⟩

/-! Claim C4. -/

/-- Claim C4, failing input: a line that splits into exactly 8
whitespace-separated fields whose 3rd field parses as RFC3339 but whose 8th
field (the message) is the empty string.  The spec requires the parser to
totally evaluate and produce one record; the code evaluates message[0] on
the empty message and panics with an index-out-of-range runtime error,
aborting the whole bulk request. -/
theorem c4_empty_message_crash :
    (splitNGo "1 <1>1 2011-11-13T01:11:11+00:00 host app web.1 - " 8).length = 8 ∧
    (parseRFC3339 ((splitNGo "1 <1>1 2011-11-13T01:11:11+00:00 host app web.1 - " 8).getD 2 "")).isSome
      = true ∧
    parseLine oracleJsonNone "id0" "1 <1>1 2011-11-13T01:11:11+00:00 host app web.1 - " =
      .crash :=
  ⟨rfl, rfl, rfl⟩

/-! Claim C5. -/

/-- Claim C5, counterexample: creating an engine for a token whose
per-tenant directory does not yet exist makes listIndexes fail, and
NewEngine passes that error to panic instead of returning it -- the
storage error is not surfaced as an error result. -/
theorem c5_counterexample :
    newEngine none (fun _ => some 5) = Outcome.panicked (.msg "list indexes") := rfl

/-- Claim C5 (amended): storage errors inside indexing and search calls --
failing to stat, create or open a shard in indexFor -- are returned to the
caller as error results; but a storage error while constructing a tenant's
engine (listing the tenant directory, as happens when the per-tenant
directory does not yet exist, or opening a persisted index) is passed to
panic and crashes the process. -/
theorem c5_amended (disk : Disk) (st : EngSt) (d : String) :
    (assocGet st d = none → disk d = .statError →
      indexFor disk st d = .error (.msg "failed to check existence of index")) ∧
    (assocGet st d = none → disk d = .absent none →
      indexFor disk st d = .error (.msg "bleve new")) ∧
    (assocGet st d = none → disk d = .present none →
      indexFor disk st d = .error (.msg "bleve open")) ∧
    (∀ openIdx : String → Option Handle, ∃ e, newEngine none openIdx = Outcome.panicked e) := by
  refine ⟨fun h1 h2 => ?_, fun h1 h2 => ?_, fun h1 h2 => ?_, fun openIdx => ⟨_, rfl⟩⟩
  all_goals simp [indexFor, h1, h2]

/-- Claim C5 witness: the amended statement evaluated at a concrete engine
state and disk. -/
theorem c5_amended_witness :
    indexFor (fun _ => DiskOutcome.statError) [] "20200101" =
      .error (.msg "failed to check existence of index") :=
  (c5_amended (fun _ => DiskOutcome.statError) [] "20200101").1 rfl rfl

/-! Claim C8. -/

theorem b32Char_mono : ∀ a, a < 32 → ∀ b, b < 32 → a < b → b32Char a < b32Char b := by
  decide

theorem natDigitsB32_length (l : Nat) : ∀ n, (natDigitsB32 l n).length = l := by
  induction l with
  | zero => intro n; rfl
  | succ l ih => intro n; simp [natDigitsB32, ih]

theorem natDigitsB32_lex (l : Nat) : ∀ n m : Nat, n < m → m < 32 ^ l →
    List.Lex (· < ·) (natDigitsB32 l n) (natDigitsB32 l m) := by
  induction l with
  | zero => intro n m h1 h2; omega
  | succ l ih =>
    intro n m h1 h2
    have hp : 0 < 32 ^ l := Nat.pos_pow_of_pos l (by omega)
    have hq : n / 32 ^ l ≤ m / 32 ^ l := Nat.div_le_div_right (Nat.le_of_lt h1)
    have hm32 : m / 32 ^ l < 32 := by
      rw [Nat.div_lt_iff_lt_mul hp]
      calc m < 32 ^ (l + 1) := h2
        _ = 32 * 32 ^ l := by rw [Nat.pow_succ]; ring
    rcases Nat.eq_or_lt_of_le hq with heq | hlt
    · have e1 : 32 ^ l * (m / 32 ^ l) + n % 32 ^ l = n := by
        rw [← heq]; exact Nat.div_add_mod n (32 ^ l)
      have e2 : 32 ^ l * (m / 32 ^ l) + m % 32 ^ l = m := Nat.div_add_mod m (32 ^ l)
      have hmod : n % 32 ^ l < m % 32 ^ l := by omega
      have hmb : m % 32 ^ l < 32 ^ l := Nat.mod_lt _ hp
      show List.Lex (· < ·) (b32Char (n / 32 ^ l) :: _) (b32Char (m / 32 ^ l) :: _)
      rw [heq]
      exact List.Lex.cons (ih _ _ hmod hmb)
    · exact List.Lex.rel (b32Char_mono _ (Nat.lt_of_lt_of_le hlt (Nat.le_of_lt hm32)) _ hm32 hlt)

theorem lexAppend : ∀ (l1 l2 s1 s2 : List Char), l1.length = l2.length →
    List.Lex (· < ·) l1 l2 → List.Lex (· < ·) (l1 ++ s1) (l2 ++ s2)
  | [], [], _, _, _, h => by cases h
  | [], _ :: _, _, _, hlen, _ => by simp at hlen
  | _ :: _, [], _, _, hlen, _ => by simp at hlen
  | a :: as, b :: bs, s1, s2, hlen, h => by
    cases h with
    | cons htl => exact List.Lex.cons (lexAppend as bs s1 s2 (by simpa using hlen) htl)
    | rel hab => exact List.Lex.rel hab

/-- Claim C8: identifiers generated at strictly increasing millisecond
timestamps are strictly increasing in lexicographic string order, whatever
the random payloads: the 10-character base32 timestamp prefix uses an
alphabet in ascending character order, so an earlier 48-bit timestamp gives
a lexicographically smaller identifier regardless of the random suffix.
The 2^48 bound is the ULID time capacity, beyond which the generator
refuses to produce an identifier at all. -/
theorem c8_ulid_monotone (t1 t2 r1 r2 : Nat) (h12 : t1 < t2) (h2 : t2 < 2 ^ 48) :
    ulidString t1 r1 < ulidString t2 r2 := by
  have hbound : t2 < 32 ^ 10 := by
    calc t2 < 2 ^ 48 := h2
      _ ≤ 32 ^ 10 := by norm_num
  have hlt := natDigitsB32_lex 10 t1 t2 h12 hbound
  rw [String.lt_iff_toList_lt]
  show (natDigitsB32 10 t1 ++ natDigitsB32 16 r1) < (natDigitsB32 10 t2 ++ natDigitsB32 16 r2)
  exact lexAppend (natDigitsB32 10 t1) (natDigitsB32 10 t2) (natDigitsB32 16 r1)
    (natDigitsB32 16 r2) (by rw [natDigitsB32_length, natDigitsB32_length]) hlt

/-- Claim C8 witness: monotonicity evaluated at concrete timestamps 1 and 2
with adversarial random payloads. -/
theorem c8_ulid_monotone_witness : ulidString 1 999999 < ulidString 2 0 :=
  c8_ulid_monotone 1 2 999999 0 (by omega) (by norm_num)

/-! Claim C2. -/

theorem searchGo_ok_length (disk : Disk) (fetch : FetchOracle) (unm : UnmarshalOracle) :
    ∀ (hits : List Hit) (st st' : EngSt) (limit : Int) (logs : List OutRec),
    searchGo disk fetch unm st hits limit = (st', .ok logs) → logs.length = hits.length := by
  intro hits
  induction hits with
  | nil =>
    intro st st' limit logs h
    simp only [searchGo, Prod.mk.injEq, Outcome.ok.injEq] at h
    rw [← h.2]
    rfl
  | cons hit rest ih =>
    intro st st' limit logs h
    rcases hit with ⟨hid, tf⟩
    cases tf with
    | str s =>
      cases hp : parseRFC3339 s with
      | none => simp only [searchGo, hp] at h; simp at h
      | some dt =>
        cases hif : indexFor disk st (formatDay dt) with
        | error e => simp only [searchGo, hp, hif] at h; simp at h
        | ok pr =>
          rcases pr with ⟨hd, st1⟩
          cases hf : fetch hd hid with
          | none => simp only [searchGo, hp, hif, hf] at h; simp at h
          | some raw =>
            cases hu : unm raw with
            | none => simp only [searchGo, hp, hif, hf, hu] at h; simp at h
            | some data =>
              rcases hrec : searchGo disk fetch unm st1 rest limit with ⟨st2, res⟩
              cases res with
              | ok logs2 =>
                simp only [searchGo, hp, hif, hf, hu, hrec, Prod.mk.injEq,
                  Outcome.ok.injEq] at h
                have hlen := ih st1 st2 limit logs2 hrec
                rw [← h.2]
                simp [hlen]
              | fail e => simp only [searchGo, hp, hif, hf, hu, hrec] at h; simp at h
              | panicked e => simp only [searchGo, hp, hif, hf, hu, hrec] at h; simp at h
    | num s => simp only [searchGo] at h; simp at h
    | boolean b => simp only [searchGo] at h; simp at h
    | null => simp only [searchGo] at h; simp at h
    | arr xs => simp only [searchGo] at h; simp at h
    | obj kvs => simp only [searchGo] at h; simp at h
    | timeVal t => simp only [searchGo] at h; simp at h

/-- Claim C2, counterexample: Engine.Search never reads its limit argument,
so a call with limit 0 still returns one record per hit of the underlying
query -- here one record for one hit, exceeding the limit. -/
theorem c2_counterexample :
    ∃ logs, (searchGo oracleDiskNew oracleFetchOk oracleUnmEmpty []
        [⟨"a", .str "2020-01-01T00:00:00Z"⟩] 0).2 = .ok logs ∧ 0 < logs.length :=
  ⟨[⟨"a", []⟩], rfl, by simp⟩

/-- Claim C2 (amended): on success, Engine.Search returns exactly one
record per hit produced by the underlying union query, whatever the limit
argument is -- the limit parameter is received and never applied, so the
only effective cap is the one inside the search request itself. -/
theorem c2_amended (disk : Disk) (fetch : FetchOracle) (unm : UnmarshalOracle)
    (st st' : EngSt) (hits : List Hit) (limit : Int) (logs : List OutRec)
    (h : searchGo disk fetch unm st hits limit = (st', .ok logs)) :
    logs.length = hits.length :=
  searchGo_ok_length disk fetch unm hits st st' limit logs h

/-- Claim C2 witness: the amended statement evaluated on a concrete
one-hit search with limit 0. -/
theorem c2_amended_witness :
    ([⟨"a", []⟩] : List OutRec).length = ([⟨"a", .str "2020-01-01T00:00:00Z"⟩] : List Hit).length :=
  c2_amended oracleDiskNew oracleFetchOk oracleUnmEmpty [] [("20200101", 5)]
    [⟨"a", .str "2020-01-01T00:00:00Z"⟩] 0 [⟨"a", []⟩] rfl

/-! Claim C3. -/

theorem commitPhase_prefix (disk : Disk) (commitOk : String → Bool) :
    ∀ (order : List String) (st : EngSt), ∃ n, n ≤ order.length ∧
      (commitPhase disk commitOk st order).2.1 = order.take n ∧
      ((commitPhase disk commitOk st order).2.2 = none →
        (commitPhase disk commitOk st order).2.1 = order) := by
  intro order
  induction order with
  | nil => intro st; exact ⟨0, by simp, by simp [commitPhase], by simp [commitPhase]⟩
  | cons date rest ih =>
    intro st
    cases hif : indexFor disk st date with
    | error e =>
      exact ⟨0, by simp, by simp [commitPhase, hif], by simp [commitPhase, hif]⟩
    | ok pr =>
      rcases pr with ⟨h, st'⟩
      by_cases hc : commitOk date
      · obtain ⟨n, hn, hpre, hcomp⟩ := ih st'
        rcases hrec : commitPhase disk commitOk st' rest with ⟨st'', cs, err⟩
        rw [hrec] at hpre hcomp
        refine ⟨n + 1, by simpa using hn, ?_, ?_⟩
        · simp only [commitPhase, hif, hc, if_true, hrec, List.take_succ_cons]
          simpa using hpre
        · intro hnone
          simp only [commitPhase, hif, hc, if_true, hrec] at hnone ⊢
          simpa using hcomp (by simpa using hnone)
      · exact ⟨0, by simp, by simp [commitPhase, hif, hc], by simp [commitPhase, hif, hc]⟩

/-- Claim C3, counterexample: an ingestion of one record for day 20200101
and one for day 20200102, where only the 20200101 commit fails and the
20200102 commit would succeed, and iteration order visits 20200101 first:
the call returns an error and the committed list is empty -- the batch of
the non-failing shard 20200102 was never committed, so the loss is not
limited to the failing shard. -/
theorem c3_counterexample :
    (engineIndex oracleDiskNew (fun _ => true) (fun d => d == "20200102")
        ["20200101", "20200102"] [] [logA, logB]).2 =
      ([], some (.msg "error executing batch")) ∧
    (fun d => d == "20200102") "20200102" = true ∧
    ("20200102" : String) ≠ "20200101" :=
  ⟨rfl, rfl, by decide⟩

/-- Claim C3 (amended): if one shard's commit fails, the ingestion call
returns an error; the batches committed before the failure in the commit
loop's iteration order remain committed (no rollback), and the failing
shard's batch together with every batch not yet reached in that order is
lost -- the committed day keys always form a prefix of the iteration
order, and only a run with no error commits the whole order. -/
theorem c3_amended (disk : Disk) (marshalOk : Log → Bool) (commitOk : String → Bool)
    (order : List String) (st : EngSt) (logs : List Log) :
    ∃ n, n ≤ order.length ∧
      (engineIndex disk marshalOk commitOk order st logs).2.1 = order.take n ∧
      ((engineIndex disk marshalOk commitOk order st logs).2.2 = none →
        (engineIndex disk marshalOk commitOk order st logs).2.1 = order) := by
  rcases hph : indexPhase1 disk marshalOk st [] logs with ⟨st1, groups, err⟩
  cases err with
  | none =>
    obtain ⟨n, hn, hpre, hcomp⟩ := commitPhase_prefix disk commitOk order st1
    exact ⟨n, hn, by simpa [engineIndex, hph] using hpre,
      by simpa [engineIndex, hph] using hcomp⟩
  | some e =>
    exact ⟨0, by simp, by simp [engineIndex, hph], by simp [engineIndex, hph]⟩

/-- Claim C3 witness: the amended prefix property evaluated on a concrete
two-shard ingestion whose first commit fails. -/
theorem c3_amended_witness :
    ∃ n, n ≤ (["20200101", "20200102"] : List String).length ∧
      (engineIndex oracleDiskNew (fun _ => true) (fun d => d == "20200102")
          ["20200101", "20200102"] [] [logA, logB]).2.1 =
        (["20200101", "20200102"] : List String).take n ∧
      ((engineIndex oracleDiskNew (fun _ => true) (fun d => d == "20200102")
          ["20200101", "20200102"] [] [logA, logB]).2.2 = none →
        (engineIndex oracleDiskNew (fun _ => true) (fun d => d == "20200102")
            ["20200101", "20200102"] [] [logA, logB]).2.1 = ["20200101", "20200102"]) :=
  c3_amended oracleDiskNew (fun _ => true) (fun d => d == "20200102")
    ["20200101", "20200102"] [] [logA, logB]

/-! Claim C7. -/

/-- Failure condition of one search hit, per the three fallible stages the
claim names: the stored time string does not parse, or the raw blob cannot
be fetched, or the fetched blob does not deserialize. -/
def hitFails (fetch : FetchOracle) (unm : UnmarshalOracle) (hit : Hit) : Prop :=
  ∃ s, hit.timeField = JVal.str s ∧
    (parseRFC3339 s = none ∨
      ∀ h : Handle, fetch h hit.id = none ∨
        ∃ raw, fetch h hit.id = some raw ∧ unm raw = none)

/-- Claim C7: when every hit carries a string time field (as bleve stored
fields do) and some hit fails one of the three retrieval stages -- time
parse, raw blob fetch, blob deserialization -- the whole search call
returns an error: no partial or best-effort result list is produced. -/
theorem c7_hit_failure_fails_search (disk : Disk) (fetch : FetchOracle)
    (unm : UnmarshalOracle) (st : EngSt) (hits : List Hit) (limit : Int)
    (hstr : ∀ hit ∈ hits, ∃ s, hit.timeField = JVal.str s)
    (hbad : ∃ hit ∈ hits, hitFails fetch unm hit) :
    ∃ e, (searchGo disk fetch unm st hits limit).2 = .fail e := by
  induction hits generalizing st with
  | nil => simp at hbad
  | cons hit rest ih =>
    obtain ⟨s, hs⟩ := hstr hit (by simp)
    rcases hit with ⟨hid, tf⟩
    simp only at hs
    subst hs
    cases hp : parseRFC3339 s with
    | none => exact ⟨GoErr.msg "time parse", by simp only [searchGo, hp]⟩
    | some dt =>
      cases hif : indexFor disk st (formatDay dt) with
      | error e => exact ⟨e, by simp only [searchGo, hp, hif]⟩
      | ok pr =>
        rcases pr with ⟨hd, st1⟩
        cases hf : fetch hd hid with
        | none => exact ⟨GoErr.msg "bleve get internal", by simp only [searchGo, hp, hif, hf]⟩
        | some raw =>
          cases hu : unm raw with
          | none => exact ⟨GoErr.msg "json unmarshal", by simp only [searchGo, hp, hif, hf, hu]⟩
          | some data =>
            have hbadrest : ∃ h ∈ rest, hitFails fetch unm h := by
              rcases hbad with ⟨h, hmem, hfl⟩
              rcases List.mem_cons.mp hmem with heq | hmem2
              · exfalso
                subst heq
                rcases hfl with ⟨s', hs', hor⟩
                simp only at hs'
                cases hs'
                rcases hor with hpn | hall
                · rw [hp] at hpn; cases hpn
                · rcases hall hd with hfn | ⟨raw', hraw', hun⟩
                  · rw [hf] at hfn; cases hfn
                  · rw [hf] at hraw'
                    cases hraw'
                    rw [hu] at hun
                    cases hun
              · exact ⟨h, hmem2, hfl⟩
            obtain ⟨e, he⟩ :=
              ih st1 (fun h hm => hstr h (List.mem_cons_of_mem _ hm)) hbadrest
            rcases hrec : searchGo disk fetch unm st1 rest limit with ⟨st2, res⟩
            rw [hrec] at he
            simp only at he
            subst he
            exact ⟨e, by simp only [searchGo, hp, hif, hf, hu, hrec]⟩

/-- Claim C7 witness: a concrete one-hit search whose stored time field
fails to parse returns an error. -/
theorem c7_witness :
    ∃ e, (searchGo oracleDiskNew oracleFetchOk oracleUnmEmpty []
        [⟨"a", .str "notATime"⟩] 1000).2 = .fail e :=
  c7_hit_failure_fails_search oracleDiskNew oracleFetchOk oracleUnmEmpty []
    [⟨"a", .str "notATime"⟩] 1000 (by intro hit hm; simp at hm; subst hm; exact ⟨_, rfl⟩)
    ⟨⟨"a", .str "notATime"⟩, by simp, ⟨"notATime", rfl, Or.inl rfl⟩⟩

/-! Dictionary and parser lemmas shared by claims C6 and C10. -/

theorem dictGet_set (d : Dict) (k k' : String) (v : JVal) :
    (d.set k v).get k' = if k = k' then some v else d.get k' := rfl

theorem assocGet_append {α : Type} (l1 l2 : List (String × α)) (k : String) :
    assocGet (l1 ++ l2) k = (assocGet l1 k).or (assocGet l2 k) := by
  induction l1 with
  | nil => simp [assocGet, Option.or]
  | cons kv rest ih =>
    rcases kv with ⟨k1, v1⟩
    by_cases hk : k1 = k
    · simp [assocGet, hk, Option.or]
    · simp [assocGet, hk, ih]

theorem objGet_cons (k1 : String) (v1 : JVal) (rest : List (String × JVal)) (k : String) :
    objGet ((k1, v1) :: rest) k = (objGet rest k).or (if k1 = k then some v1 else none) := by
  simp only [objGet, List.reverse_cons, assocGet_append]
  rfl

theorem unmarshalInto_get (kvs : List (String × JVal)) : ∀ (d : Dict) (k : String),
    (unmarshalInto d kvs).get k = (objGet kvs k).or (d.get k) := by
  induction kvs with
  | nil => intro d k; simp [unmarshalInto, objGet, assocGet, Option.or]
  | cons kv rest ih =>
    intro d k
    rcases kv with ⟨k1, v1⟩
    have h1 : unmarshalInto d ((k1, v1) :: rest) = unmarshalInto (d.set k1 v1) rest := rfl
    rw [h1, ih, dictGet_set, objGet_cons]
    cases objGet rest k <;> by_cases hk : k1 = k <;> simp [hk, Option.or]

theorem parseLine_eq_messageStep (jp : JsonOracle) (id line : String) (t : Timestamp)
    (h8 : (splitNGo line 8).length = 8)
    (ht : parseRFC3339 ((splitNGo line 8).getD 2 "") = some t) :
    parseLine jp id line =
      messageStep jp id t (defaultData (splitNGo line 8)) ((splitNGo line 8).getD 7 "") := by
  simp only [parseLine]
  rw [if_neg (by simp [h8]), ht]

theorem messageStep_crash (jp : JsonOracle) (id : String) (t : Timestamp) (data0 : Dict)
    (message : String) (hm : message.data = []) :
    messageStep jp id t data0 message = .crash := by
  simp only [messageStep, hm]

theorem messageStep_json (jp : JsonOracle) (id : String) (t : Timestamp) (data0 : Dict)
    (message : String) (c : Char) (cs : List Char)
    (hm : message.data = c :: cs) (hc : c = '{') (hl : (c :: cs).getLastD ' ' = '}')
    (obj : List (String × JVal)) (hobj : jp message = some obj) :
    messageStep jp id t data0 message =
      .record ⟨id, t, Dict.set (Dict.set (unmarshalInto data0 obj) "id" (.str id))
        "time" (.timeVal t)⟩ := by
  simp only [messageStep, hm, hobj]
  rw [if_pos ⟨hc, hl⟩]

theorem messageStep_json_skip (jp : JsonOracle) (id : String) (t : Timestamp) (data0 : Dict)
    (message : String) (c : Char) (cs : List Char)
    (hm : message.data = c :: cs) (hc : c = '{') (hl : (c :: cs).getLastD ' ' = '}')
    (hobj : jp message = none) :
    messageStep jp id t data0 message = .skip := by
  simp only [messageStep, hm, hobj]
  rw [if_pos ⟨hc, hl⟩]

theorem messageStep_verbatim (jp : JsonOracle) (id : String) (t : Timestamp) (data0 : Dict)
    (message : String) (c : Char) (cs : List Char)
    (hm : message.data = c :: cs) (hbr : ¬ (c = '{' ∧ (c :: cs).getLastD ' ' = '}')) :
    messageStep jp id t data0 message =
      .record ⟨id, t, Dict.set (Dict.set (Dict.set data0 "msg" (.str message))
        "id" (.str id)) "time" (.timeVal t)⟩ := by
  simp only [messageStep, hm]
  rw [if_neg hbr]

theorem defaultData_get_msg (parts : List String) : (defaultData parts).get "msg" = none := by
  simp [defaultData, Dict.set, Dict.get, assocGet]

/-! Claim C6. -/

/-- Claim C6, counterexample: the claim's clause "for any other message the
message text is stored verbatim under the msg key" fails for the empty
message, which is neither braced nor stored: the code panics on message[0]
and produces no record at all. -/
theorem c6_counterexample :
    (splitNGo "2 <2>1 2020-05-05T10:00:00Z h2 a2 web.2 - " 8).length = 8 ∧
    (parseRFC3339 ((splitNGo "2 <2>1 2020-05-05T10:00:00Z h2 a2 web.2 - " 8).getD 2 "")).isSome
      = true ∧
    ((splitNGo "2 <2>1 2020-05-05T10:00:00Z h2 a2 web.2 - " 8).getD 7 "") = "" ∧
    parseLine oracleJsonFoo "01B" "2 <2>1 2020-05-05T10:00:00Z h2 a2 web.2 - " = .crash ∧
    ∀ r, parseLine oracleJsonFoo "01B" "2 <2>1 2020-05-05T10:00:00Z h2 a2 web.2 - "
      ≠ .record r := by
  refine ⟨rfl, rfl, rfl, rfl, fun r h => ?_⟩
  have hc : parseLine oracleJsonFoo "01B" "2 <2>1 2020-05-05T10:00:00Z h2 a2 web.2 - "
      = .crash := rfl
  rw [hc] at h
  exact LineResult.noConfusion h

/-- Claim C6 (amended): for every parsed line (8 fields, parseable 3rd
field), writing message for the 8th field: when message starts with a brace
and ends with a brace, a successful JSON decode yields one record whose
fields equal the decoded top-level keys union the host/app/process defaults
with decoded keys taking precedence (outside the id and time keys the
parser itself then assigns) and with no default msg key added, and a failed
decode skips the whole line; any other NON-EMPTY message is stored verbatim
under the msg key (the empty message instead panics, see the
counterexample). -/
theorem c6_amended (jp : JsonOracle) (id line : String) (t : Timestamp)
    (h8 : (splitNGo line 8).length = 8)
    (ht : parseRFC3339 ((splitNGo line 8).getD 2 "") = some t) :
    (((splitNGo line 8).getD 7 "").data = [] → parseLine jp id line = .crash) ∧
    (∀ c cs, ((splitNGo line 8).getD 7 "").data = c :: cs → c = '{' →
        (c :: cs).getLastD ' ' = '}' →
      (∀ obj, jp ((splitNGo line 8).getD 7 "") = some obj →
        ∃ r, parseLine jp id line = .record r ∧
          (∀ k, k ≠ "id" → k ≠ "time" →
            r.Data.get k = (objGet obj k).or ((defaultData (splitNGo line 8)).get k)) ∧
          (objGet obj "msg" = none → r.Data.get "msg" = none)) ∧
      (jp ((splitNGo line 8).getD 7 "") = none → parseLine jp id line = .skip)) ∧
    (∀ c cs, ((splitNGo line 8).getD 7 "").data = c :: cs →
        ¬ (c = '{' ∧ (c :: cs).getLastD ' ' = '}') →
      ∃ r, parseLine jp id line = .record r ∧
        r.Data.get "msg" = some (.str ((splitNGo line 8).getD 7 "")) ∧
        (∀ k, k ≠ "id" → k ≠ "time" → k ≠ "msg" →
          r.Data.get k = (defaultData (splitNGo line 8)).get k)) := by
  rw [parseLine_eq_messageStep jp id line t h8 ht]
  refine ⟨fun hm => messageStep_crash _ _ _ _ _ hm, fun c cs hm hc hl => ⟨?_, ?_⟩,
    fun c cs hm hbr => ?_⟩
  · intro obj hobj
    refine ⟨_, messageStep_json _ _ _ _ _ c cs hm hc hl obj hobj, fun k hki hkt => ?_, ?_⟩
    · show (Dict.set (Dict.set (unmarshalInto (defaultData (splitNGo line 8)) obj)
        "id" (.str id)) "time" (.timeVal t)).get k = _
      rw [dictGet_set, if_neg (fun hh => hkt hh.symm), dictGet_set,
        if_neg (fun hh => hki hh.symm), unmarshalInto_get]
    · intro hmsg
      show (Dict.set (Dict.set (unmarshalInto (defaultData (splitNGo line 8)) obj)
        "id" (.str id)) "time" (.timeVal t)).get "msg" = none
      rw [dictGet_set, if_neg (by decide), dictGet_set, if_neg (by decide),
        unmarshalInto_get, hmsg, defaultData_get_msg]
      rfl
  · intro hobj
    exact messageStep_json_skip _ _ _ _ _ c cs hm hc hl hobj
  · refine ⟨_, messageStep_verbatim _ _ _ _ _ c cs hm hbr, ?_, fun k hki hkt hkm => ?_⟩
    · show (Dict.set (Dict.set (Dict.set (defaultData (splitNGo line 8))
        "msg" (.str ((splitNGo line 8).getD 7 ""))) "id" (.str id)) "time" (.timeVal t)).get
        "msg" = _
      rw [dictGet_set, if_neg (by decide), dictGet_set, if_neg (by decide), dictGet_set,
        if_pos rfl]
    · show (Dict.set (Dict.set (Dict.set (defaultData (splitNGo line 8))
        "msg" (.str ((splitNGo line 8).getD 7 ""))) "id" (.str id)) "time" (.timeVal t)).get
        k = _
      rw [dictGet_set, if_neg (fun hh => hkt hh.symm), dictGet_set,
        if_neg (fun hh => hki hh.symm), dictGet_set, if_neg (fun hh => hkm hh.symm)]

/-- Claim C6 witness: the amended statement evaluated on a concrete braced
line decoded by a concrete JSON oracle; the decoded key is retrievable from
the record's fields. -/
theorem c6_amended_witness :
    ∃ r, parseLine oracleJsonFoo "01W" "1 <1>1 2020-01-01T00:00:00Z h a p - \x7bk\x7d"
        = .record r ∧ r.Data.get "foo" = some (.str "bar") := by
  obtain ⟨r, hr, hk, -⟩ :=
    ((c6_amended oracleJsonFoo "01W" "1 <1>1 2020-01-01T00:00:00Z h a p - \x7bk\x7d"
      ⟨2020, 1, 1, 0, 0, 0, 0, 0⟩ rfl rfl).2.1 '{' ['k', '}'] rfl rfl rfl).1
      [("foo", JVal.str "bar")] rfl
  refine ⟨r, hr, ?_⟩
  rw [hk "foo" (by decide) (by decide)]
  rfl

/-! Claim C10. -/

/-- Claim C10: for every record built from a braced message whose decoded
JSON object lacks a msg key -- a shape the parser admits without adding any
default msg -- Log.FormattedMessage's unconditional type assertion on
Data["msg"] fails, so formatting the record panics instead of returning a
message. -/
theorem c10_missing_msg_panics (jp : JsonOracle) (id line : String) (t : Timestamp)
    (h8 : (splitNGo line 8).length = 8)
    (ht : parseRFC3339 ((splitNGo line 8).getD 2 "") = some t)
    (c : Char) (cs : List Char)
    (hm : ((splitNGo line 8).getD 7 "").data = c :: cs) (hc : c = '{')
    (hl : (c :: cs).getLastD ' ' = '}')
    (obj : List (String × JVal)) (hobj : jp ((splitNGo line 8).getD 7 "") = some obj)
    (hnomsg : objGet obj "msg" = none) :
    ∃ r, parseLine jp id line = .record r ∧
      FormattedMessage r.Data = .panicked (.msg "interface conversion") := by
  rw [parseLine_eq_messageStep jp id line t h8 ht]
  refine ⟨_, messageStep_json _ _ _ _ _ c cs hm hc hl obj hobj, ?_⟩
  have hget : (Dict.set (Dict.set (unmarshalInto (defaultData (splitNGo line 8)) obj)
      "id" (.str id)) "time" (.timeVal t)).get "msg" = none := by
    rw [dictGet_set, if_neg (by decide), dictGet_set, if_neg (by decide),
      unmarshalInto_get, hnomsg, defaultData_get_msg]
    rfl
  show FormattedMessage (Dict.set (Dict.set (unmarshalInto (defaultData (splitNGo line 8)) obj)
      "id" (.str id)) "time" (.timeVal t)) = _
  simp only [FormattedMessage, hget]

/-- Claim C10 witness: a concrete braced line whose JSON object has only a
foo key parses to a record that FormattedMessage panics on. -/
theorem c10_witness :
    ∃ r, parseLine oracleJsonFoo "01C" "1 <1>1 2020-01-01T00:00:00Z h a p - \x7bj\x7d"
        = .record r ∧ FormattedMessage r.Data = .panicked (.msg "interface conversion") :=
  c10_missing_msg_panics oracleJsonFoo "01C" "1 <1>1 2020-01-01T00:00:00Z h a p - \x7bj\x7d"
    ⟨2020, 1, 1, 0, 0, 0, 0, 0⟩ rfl rfl '{' ['j', '}'] rfl rfl rfl
    [("foo", JVal.str "bar")] rfl rfl

/-! Claim C9. -/

/-- The day-to-shard map only grows: every binding visible before an
operation is still visible, unchanged, afterwards. -/
def grows (st st' : EngSt) : Prop :=
  ∀ d h, assocGet st d = some h → assocGet st' d = some h

/-- At most one live handle per day key. -/
def keysNodup (st : EngSt) : Prop := (st.map Prod.fst).Nodup

theorem grows_refl (st : EngSt) : grows st st := fun _ _ h => h

theorem grows_trans {a b c : EngSt} (h1 : grows a b) (h2 : grows b c) : grows a c :=
  fun d h hd => h2 d h (h1 d h hd)

theorem assocGet_none_not_mem {α : Type} (st : List (String × α)) (d : String)
    (h : assocGet st d = none) : d ∉ st.map Prod.fst := by
  induction st with
  | nil => simp
  | cons kv rest ih =>
    rcases kv with ⟨k, v⟩
    simp only [assocGet] at h
    by_cases hk : k = d
    · rw [if_pos hk] at h; cases h
    · rw [if_neg hk] at h
      simp only [List.map_cons, List.mem_cons]
      rintro (h1 | h2)
      · exact hk h1.symm
      · exact ih h h2

theorem indexFor_ok (disk : Disk) (st : EngSt) (date : String) (h : Handle) (st' : EngSt)
    (hok : indexFor disk st date = .ok (h, st')) :
    grows st st' ∧ assocGet st' date = some h ∧
    (∀ h0, assocGet st date = some h0 → h = h0 ∧ st' = st) ∧
    (assocGet st date = none → st' = (date, h) :: st) ∧
    (keysNodup st → keysNodup st') := by
  cases hlk : assocGet st date with
  | some h0 =>
    simp only [indexFor, hlk, Except.ok.injEq, Prod.mk.injEq] at hok
    obtain ⟨hh, hst⟩ := hok
    subst hh
    subst hst
    exact ⟨grows_refl st, hlk, fun h1 hh1 => ⟨Option.some.inj hh1, rfl⟩,
      fun hn => Option.noConfusion hn, fun hn => hn⟩
  | none =>
    have hreg : ∀ hc : Handle, st' = (date, hc) :: st → h = hc →
        grows st st' ∧ assocGet st' date = some h ∧
        (∀ h0, (none : Option Handle) = some h0 → h = h0 ∧ st' = st) ∧
        ((none : Option Handle) = none → st' = (date, h) :: st) ∧
        (keysNodup st → keysNodup st') := by
      intro hc hst hh
      subst hh
      subst hst
      refine ⟨?_, by simp [assocGet], fun h0 hh0 => Option.noConfusion hh0,
        fun _ => rfl, fun hnd => ?_⟩
      · intro d hd hget
        simp only [assocGet]
        by_cases hdd : date = d
        · subst hdd; rw [hlk] at hget; cases hget
        · rw [if_neg hdd]; exact hget
      · exact List.Nodup.cons (assocGet_none_not_mem st date hlk) hnd
    cases hdisk : disk date with
    | statError => simp [indexFor, hlk, hdisk] at hok
    | absent cr =>
      cases cr with
      | none => simp [indexFor, hlk, hdisk] at hok
      | some hc =>
        simp only [indexFor, hlk, hdisk, Except.ok.injEq, Prod.mk.injEq] at hok
        exact hreg hc hok.2.symm hok.1.symm
    | present op =>
      cases op with
      | none => simp [indexFor, hlk, hdisk] at hok
      | some hc =>
        simp only [indexFor, hlk, hdisk, Except.ok.injEq, Prod.mk.injEq] at hok
        exact hreg hc hok.2.symm hok.1.symm

theorem indexPhase1_preserves (disk : Disk) (marshalOk : Log → Bool) :
    ∀ (logs : List Log) (st : EngSt) (groups : List (String × List String)),
    grows st (indexPhase1 disk marshalOk st groups logs).1 ∧
    (keysNodup st → keysNodup (indexPhase1 disk marshalOk st groups logs).1) := by
  intro logs
  induction logs with
  | nil => intro st groups; exact ⟨grows_refl st, fun hh => hh⟩
  | cons lg rest ih =>
    intro st groups
    cases hif : indexFor disk st (formatDay lg.Time) with
    | error e =>
      simp only [indexPhase1, hif]
      exact ⟨grows_refl st, fun hh => hh⟩
    | ok pr =>
      rcases pr with ⟨hd, st1⟩
      obtain ⟨hg1, -, -, -, hnd1⟩ := indexFor_ok disk st _ hd st1 hif
      by_cases hmk : marshalOk lg = true
      · simp only [indexPhase1, hif, hmk, if_true]
        obtain ⟨hg2, hnd2⟩ := ih st1 (addToGroup groups (formatDay lg.Time) lg.Id)
        exact ⟨grows_trans hg1 hg2, fun hh => hnd2 (hnd1 hh)⟩
      · simp only [indexPhase1, hif, hmk, if_false]
        exact ⟨hg1, hnd1⟩

theorem commitPhase_preserves (disk : Disk) (commitOk : String → Bool) :
    ∀ (order : List String) (st : EngSt),
    grows st (commitPhase disk commitOk st order).1 ∧
    (keysNodup st → keysNodup (commitPhase disk commitOk st order).1) := by
  intro order
  induction order with
  | nil => intro st; exact ⟨grows_refl st, fun hh => hh⟩
  | cons date rest ih =>
    intro st
    cases hif : indexFor disk st date with
    | error e =>
      simp only [commitPhase, hif]
      exact ⟨grows_refl st, fun hh => hh⟩
    | ok pr =>
      rcases pr with ⟨hd, st1⟩
      obtain ⟨hg1, -, -, -, hnd1⟩ := indexFor_ok disk st _ hd st1 hif
      by_cases hc : commitOk date = true
      · rcases hrec : commitPhase disk commitOk st1 rest with ⟨st2, cs, err⟩
        obtain ⟨hg2, hnd2⟩ := ih st1
        rw [hrec] at hg2 hnd2
        simp only [commitPhase, hif, hc, if_true, hrec]
        exact ⟨grows_trans hg1 hg2, fun hh => hnd2 (hnd1 hh)⟩
      · simp only [commitPhase, hif, hc, if_false]
        exact ⟨hg1, hnd1⟩

theorem engineIndex_preserves (disk : Disk) (marshalOk : Log → Bool)
    (commitOk : String → Bool) (order : List String) (st : EngSt) (logs : List Log) :
    grows st (engineIndex disk marshalOk commitOk order st logs).1 ∧
    (keysNodup st → keysNodup (engineIndex disk marshalOk commitOk order st logs).1) := by
  obtain ⟨hg1, hnd1⟩ := indexPhase1_preserves disk marshalOk logs st []
  rcases hph : indexPhase1 disk marshalOk st [] logs with ⟨st1, groups, err⟩
  rw [hph] at hg1 hnd1
  cases err with
  | none =>
    obtain ⟨hg2, hnd2⟩ := commitPhase_preserves disk commitOk order st1
    simp only [engineIndex, hph]
    exact ⟨grows_trans hg1 hg2, fun hh => hnd2 (hnd1 hh)⟩
  | some e =>
    simp only [engineIndex, hph]
    exact ⟨hg1, hnd1⟩

theorem searchGo_preserves (disk : Disk) (fetch : FetchOracle) (unm : UnmarshalOracle) :
    ∀ (hits : List Hit) (st : EngSt) (limit : Int),
    grows st (searchGo disk fetch unm st hits limit).1 ∧
    (keysNodup st → keysNodup (searchGo disk fetch unm st hits limit).1) := by
  intro hits
  induction hits with
  | nil => intro st limit; exact ⟨grows_refl st, fun hh => hh⟩
  | cons hit rest ih =>
    intro st limit
    rcases hit with ⟨hid, tf⟩
    cases tf with
    | str s =>
      cases hp : parseRFC3339 s with
      | none =>
        simp only [searchGo, hp]
        exact ⟨grows_refl st, fun hh => hh⟩
      | some dt =>
        cases hif : indexFor disk st (formatDay dt) with
        | error e =>
          simp only [searchGo, hp, hif]
          exact ⟨grows_refl st, fun hh => hh⟩
        | ok pr =>
          rcases pr with ⟨hd, st1⟩
          obtain ⟨hg1, -, -, -, hnd1⟩ := indexFor_ok disk st _ hd st1 hif
          cases hf : fetch hd hid with
          | none =>
            simp only [searchGo, hp, hif, hf]
            exact ⟨hg1, hnd1⟩
          | some raw =>
            cases hu : unm raw with
            | none =>
              simp only [searchGo, hp, hif, hf, hu]
              exact ⟨hg1, hnd1⟩
            | some data =>
              obtain ⟨hg2, hnd2⟩ := ih st1 limit
              rcases hrec : searchGo disk fetch unm st1 rest limit with ⟨st2, res⟩
              rw [hrec] at hg2 hnd2
              cases res with
              | ok logs =>
                simp only [searchGo, hp, hif, hf, hu, hrec]
                exact ⟨grows_trans hg1 hg2, fun hh => hnd2 (hnd1 hh)⟩
              | fail e =>
                simp only [searchGo, hp, hif, hf, hu, hrec]
                exact ⟨grows_trans hg1 hg2, fun hh => hnd2 (hnd1 hh)⟩
              | panicked e =>
                simp only [searchGo, hp, hif, hf, hu, hrec]
                exact ⟨grows_trans hg1 hg2, fun hh => hnd2 (hnd1 hh)⟩
    | num s => simp only [searchGo]; exact ⟨grows_refl st, fun hh => hh⟩
    | boolean b => simp only [searchGo]; exact ⟨grows_refl st, fun hh => hh⟩
    | null => simp only [searchGo]; exact ⟨grows_refl st, fun hh => hh⟩
    | arr xs => simp only [searchGo]; exact ⟨grows_refl st, fun hh => hh⟩
    | obj kvs => simp only [searchGo]; exact ⟨grows_refl st, fun hh => hh⟩
    | timeVal tv => simp only [searchGo]; exact ⟨grows_refl st, fun hh => hh⟩

/-- Claim C9: every engine operation preserves the day-key-to-shard-handle
map invariants.  indexFor returns the cached handle unchanged when one is
present; otherwise it registers the newly opened or created handle in the
map before returning it; no operation removes or replaces an entry (the map
only grows across indexing, search and shard lookup, and stats reads
exactly the open shards); and the at-most-one-handle-per-day-key property
is preserved throughout. -/
theorem c9_shard_map_invariants :
    (∀ (disk : Disk) (st : EngSt) (date : String) (h : Handle) (st' : EngSt),
      indexFor disk st date = .ok (h, st') →
        grows st st' ∧ assocGet st' date = some h ∧
        (∀ h0, assocGet st date = some h0 → h = h0 ∧ st' = st) ∧
        (assocGet st date = none → st' = (date, h) :: st) ∧
        (keysNodup st → keysNodup st')) ∧
    (∀ (disk : Disk) (marshalOk : Log → Bool) (commitOk : String → Bool)
        (order : List String) (st : EngSt) (logs : List Log),
      grows st (engineIndex disk marshalOk commitOk order st logs).1 ∧
      (keysNodup st → keysNodup (engineIndex disk marshalOk commitOk order st logs).1)) ∧
    (∀ (disk : Disk) (fetch : FetchOracle) (unm : UnmarshalOracle) (st : EngSt)
        (hits : List Hit) (limit : Int),
      grows st (searchGo disk fetch unm st hits limit).1 ∧
      (keysNodup st → keysNodup (searchGo disk fetch unm st hits limit).1)) ∧
    (∀ (statOf : Handle → Dict) (st : EngSt),
      (engineStats statOf st).map Prod.fst = st.map Prod.fst) := by
  refine ⟨indexFor_ok, engineIndex_preserves, ?_, ?_⟩
  · intro disk fetch unm st hits limit
    exact searchGo_preserves disk fetch unm hits st limit
  · intro statOf st
    simp [engineStats]

/-- Claim C9 witness: the invariants evaluated on a concrete lookup that
creates a new shard: the handle is registered, the map keeps its previous
binding, and key uniqueness is preserved. -/
theorem c9_witness :
    assocGet (("20200102", (5 : Handle)) :: [("20200101", (7 : Handle))]) "20200102"
        = some 5 ∧
    assocGet (("20200102", (5 : Handle)) :: [("20200101", (7 : Handle))]) "20200101"
        = some 7 ∧
    keysNodup (("20200102", (5 : Handle)) :: [("20200101", (7 : Handle))]) := by
  obtain ⟨hg, hreg, -, hnew, hnd⟩ :=
    c9_shard_map_invariants.1 oracleDiskNew [("20200101", (7 : Handle))] "20200102" 5
      (("20200102", (5 : Handle)) :: [("20200101", (7 : Handle))]) rfl
  exact ⟨hreg, hg "20200101" 7 rfl, hnd (by simp [keysNodup])⟩

end Firlog
